import Mathlib

/-!
Verification development for the `linkme` distributed-slice mechanism.

The repository's `src/src/lib.rs` declares the crate (platform support
table, crate docs, `mod distributed_slice`, `mod private`, re-export of
the attribute macros) and `src/tests/fn_element.rs` exercises the
attribute on plain, higher-ranked, and `unsafe extern "C"` function
items.  The bodies of `distributed_slice.rs`, the `private` module and
the `linkme_impl` proc-macro crate are not part of the given sources, so
the registration protocol, the linker's section merging and the slice
materialization are modelled here from the specification, as noted on
each such definition.
-/

namespace Linkme

/-- Modelled from the spec (§4.1, and the platform support table of
`src/src/lib.rs` lines 13-20): the platforms on which the distributed
slice component is available.  Platforms other than Linux, macOS and
Windows are not supported. -/
inductive Platform where
  | linux
  | macos
  | windows
  | other (name : String)
deriving DecidableEq

/-- Modelled from the spec: whether the Platform Section Model supports
the platform (the ✅ columns of the support table in `src/src/lib.rs`). -/
def platformSupported : Platform → Bool
  | Platform.linux => true
  | Platform.macos => true
  | Platform.windows => true
  | Platform.other _ => false

/-- Modelled from the spec (§4.1 failure policy): producing the concrete
section placement directive for a slot on a platform; on an unsupported
platform the build fails at compile time with a diagnostic instead of
emitting anything. -/
def sectionDirective (p : Platform) (sectionName : String) : Except String String :=
  if platformSupported p then
    Except.ok sectionName
  else
    Except.error ("unsupported platform for distributed slice section " ++ sectionName)

/-- ABI of a Rust function, as far as the test file needs it
(`src/tests/fn_element.rs` uses the default Rust ABI and `extern "C"`). -/
inductive Abi where
  | rustCall
  | externC
deriving DecidableEq

/-- The non-function types appearing in `src/tests/fn_element.rs`:
`()`, `i32`, and `&'a &'b ()`. -/
inductive BaseTy where
  | unit
  | i32
  | refRefUnit
deriving DecidableEq

/-- A function signature: number of higher-ranked lifetime binders
(`for<'a, 'b>`), unsafety, ABI, argument types and return type. -/
structure FnSig where
  binders : Nat
  unsafety : Bool
  abi : Abi
  args : List BaseTy
  ret : BaseTy
deriving DecidableEq

/-- Modelled from the spec (§4.3): the value types that take part in the
registration protocol — base types, function pointer types `fn(..) -> ..`,
and the zero-sized type of a particular function item, which coerces to
the corresponding function pointer type. -/
inductive RustTy where
  | base (b : BaseTy)
  | fnPtr (sig : FnSig)
  | fnDef (name : String) (sig : FnSig)
deriving DecidableEq

/-- Modelled from the spec: the coercion the emitted placement directive
applies to the registered value — a function item type coerces to the
function pointer type of its signature; every other type stays itself. -/
def coerceValueTy : RustTy → RustTy
  | RustTy.fnDef _ sig => RustTy.fnPtr sig
  | t => t

/-- A slot declaration: globally unique symbol name and element type
(`#[distributed_slice] static NAME: [T] = [..];`). -/
structure SlotDecl where
  symbolName : String
  elemTy : RustTy
deriving DecidableEq

/-- One registration directive: the target slot and the (possibly
coerced) type of the contributed value
(`#[distributed_slice(NAME)] static/fn ...`). -/
structure Registration where
  slot : String
  valueTy : RustTy
deriving DecidableEq

/-- Modelled from the spec (§4.3, §7): the compile-time checking of one
slot and its registrations — the build fails on an unsupported platform
and on any registration whose value type does not coerce to the slot's
declared element type; otherwise it succeeds and the linker will place
`regs.length` elements. -/
def buildSlot (p : Platform) (d : SlotDecl) (regs : List Registration) : Except String Nat :=
  match sectionDirective p d.symbolName with
  | Except.error e => Except.error e
  | Except.ok _ =>
    if regs.all (fun r => coerceValueTy r.valueTy == d.elemTy) then
      Except.ok regs.length
    else
      Except.error ("mismatched types in registration for slot " ++ d.symbolName)

/-- Element type layout: size and alignment in bytes. -/
structure ElemLayout where
  size : Nat
  align : Nat
deriving DecidableEq

/-- Modelled from the spec (§3, §4.2): a fully linked slot — the address
of the `start` boundary symbol, the number of contributed elements the
linker placed, and the element layout.  The linker lays the elements out
contiguously from the start address. -/
structure LinkedSlot where
  startAddr : Nat
  count : Nat
  layout : ElemLayout
deriving DecidableEq

/-- Address of the `stop` boundary symbol: just past the last element. -/
def stopAddr (s : LinkedSlot) : Nat :=
  s.startAddr + s.count * s.layout.size

/-- Address of the `k`-th contributed element in the merged section. -/
def elemAddr (s : LinkedSlot) (k : Nat) : Nat :=
  s.startAddr + k * s.layout.size

/-- Modelled from the spec (§4.4): the materialized length,
`(address_of(stop_symbol) - address_of(start_symbol)) / size_of T`. -/
def sliceLen (s : LinkedSlot) : Nat :=
  (stopAddr s - s.startAddr) / s.layout.size

/-- Modelled from the spec (§4.4): materialization derives the
(pointer, length) pair from the two boundary addresses. -/
def materializeView (s : LinkedSlot) : Nat × Nat :=
  (s.startAddr, sliceLen s)

/-- `is_empty()` on the materialized slice. -/
def viewIsEmpty (s : LinkedSlot) : Bool :=
  sliceLen s == 0

/-- Modelled from the spec (§4.3): one step of the linker's interleaving
of per-unit sub-sections — take the next not-yet-placed contribution of
unit `u`, if any. -/
def mergeStep (rem : List (List α)) (u : Nat) : Option (α × List (List α)) :=
  match rem.get? u with
  | some (x :: xs) => some (x, rem.set u xs)
  | _ => none

/-- Modelled from the spec (§2, §4.3): the linker merges the units'
contributions following an arbitrary link-order schedule `sched` of unit
indices; within one unit the contributions are consumed in their per-unit
ordinal order.  Returns the merged section contents and the contributions
left unplaced. -/
def mergeRunAux : List (List α) → List Nat → List α × List (List α)
  | rem, [] => (([] : List α), rem)
  | rem, u :: sched =>
    match mergeStep rem u with
    | some (x, rem2) =>
      let r := mergeRunAux rem2 sched
      (x :: r.1, r.2)
    | none => mergeRunAux rem sched

/-- The merged section contents produced by a link-order schedule. -/
def mergeRun (units : List (List α)) (sched : List Nat) : List α :=
  (mergeRunAux units sched).1

/-- A schedule is complete when it places every contribution of every
unit into the merged section. -/
def mergeComplete (units : List (List α)) (sched : List Nat) : Bool :=
  (mergeRunAux units sched).2.all List.isEmpty

/-- Tag every contribution with its compilation unit index and its
per-unit ordinal, the data the registration protocol encodes in the
sub-section suffix. -/
def tagUnits (units : List (List α)) : List (List (Nat × Nat × α)) :=
  units.enum.map (fun p => p.2.enum.map (fun q => (p.1, q.1, q.2)))

/-- Modelled from the spec (§4.4): the merged region read back as a
sequence — element `k` is the value stored at `elemAddr s k`. -/
def readSlice (s : LinkedSlot) (mem : Nat → α) : List α :=
  (List.range (sliceLen s)).map (fun k => mem (elemAddr s k))

/-- Bounds-checked indexing on the materialized slice: an out-of-range
index is a reported error (`none`), never an out-of-bounds read. -/
def viewGet (s : LinkedSlot) (mem : Nat → α) (i : Nat) : Option α :=
  if i < sliceLen s then some (mem (elemAddr s i)) else none

/-- Contiguous sub-range slicing `[a..b]` on the materialized slice,
bounds-checked. -/
def viewSub (s : LinkedSlot) (mem : Nat → α) (a b : Nat) : Option (List α) :=
  if a ≤ b ∧ b ≤ sliceLen s then
    some ((List.range (b - a)).map (fun k => mem (elemAddr s (a + k))))
  else
    none

/-- Forward iteration over the materialized slice, yielding the elements
front to back. -/
def viewIter (s : LinkedSlot) (mem : Nat → α) : List α :=
  readSlice s mem

/-- Spec-side reference view for the refinement claim: the plain
immutable sequence over the same memory, with the language's native
sequence operations (`List.length`, `List.get?`, `List.drop`/`List.take`,
identity iteration) applied to it. -/
def nativeSliceView (s : LinkedSlot) (mem : Nat → α) : List α :=
  readSlice s mem

/-- Modelled from the spec (§4.4): cache-once access — the first access
computes the (pointer, length) pair from the boundary addresses and
stores it; later accesses reuse the stored pair. -/
def accessSlice (s : LinkedSlot) : Option (Nat × Nat) → (Nat × Nat) × Option (Nat × Nat)
  | some v => (v, some v)
  | none => (materializeView s, some (materializeView s))

/-- Run `n` consecutive accesses starting from cache state `c`,
collecting the returned (pointer, length) pairs. -/
def accessMany (s : LinkedSlot) : Nat → Option (Nat × Nat) → List (Nat × Nat)
  | 0, _ => []
  | n + 1, c =>
    let r := accessSlice s c
    r.1 :: accessMany s n r.2

/-- Modelled from the spec (§5, §6): the run-time state visible to the
slice operations — the merged storage baked into the binary, the linked
slot, and the materialization cache. -/
structure ProcState (α : Type) where
  storage : Nat → α
  slot : LinkedSlot
  cache : Option (Nat × Nat)

/-- The run-time operations of the surface: materialize, length query,
bounds-checked indexing, sub-range slicing, forward iteration. -/
inductive SliceOp where
  | materializeOp
  | lenOp
  | getOp (i : Nat)
  | subOp (a b : Nat)
  | iterOp

/-- Result of one run-time operation. -/
inductive OpResult (α : Type) where
  | view (v : Nat × Nat)
  | num (n : Nat)
  | elem (x : Option α)
  | seq (xs : Option (List α))

/-- Modelled from the spec (§5): executing one run-time operation.  Only
the materialization cache is ever written; the storage and the slot are
read-only. -/
def runOp (op : SliceOp) (st : ProcState α) : OpResult α × ProcState α :=
  match op with
  | SliceOp.materializeOp =>
    let r := accessSlice st.slot st.cache
    (OpResult.view r.1, { st with cache := r.2 })
  | SliceOp.lenOp => (OpResult.num (sliceLen st.slot), st)
  | SliceOp.getOp i => (OpResult.elem (viewGet st.slot st.storage i), st)
  | SliceOp.subOp a b => (OpResult.seq (viewSub st.slot st.storage a b), st)
  | SliceOp.iterOp => (OpResult.seq (some (viewIter st.slot st.storage)), st)

/-- Execute a sequence of run-time operations, threading the state. -/
def runOps (ops : List SliceOp) (st : ProcState α) : ProcState α :=
  match ops with
  | [] => st
  | op :: rest => runOps rest (runOp op st).2

/-! Helper lemmas about the link-order merge. -/

lemma mergeStep_eq_some {rem rem2 : List (List α)} {u : Nat} {x : α}
    (h : mergeStep rem u = some (x, rem2)) :
    ∃ xs, rem.get? u = some (x :: xs) ∧ rem2 = rem.set u xs := by
  unfold mergeStep at h
  cases hg : rem.get? u with
  | none => rw [hg] at h; exact absurd h (by simp)
  | some l =>
    cases l with
    | nil => rw [hg] at h; simp at h
    | cons y ys =>
      rw [hg] at h
      simp only [Option.some.injEq, Prod.mk.injEq] at h
      obtain ⟨h1, h2⟩ := h
      subst h1
      exact ⟨ys, rfl, h2.symm⟩

lemma flatten_set_perm {rem : List (List α)} {u : Nat} {x : α} {xs : List α}
    (hg : rem.get? u = some (x :: xs)) :
    List.Perm rem.flatten (x :: (rem.set u xs).flatten) := by
  induction rem generalizing u with
  | nil => simp at hg
  | cons l rest ih =>
    cases u with
    | zero =>
      simp only [List.get?_cons_zero, Option.some.injEq] at hg
      subst hg
      simp [List.flatten]
    | succ n =>
      simp only [List.get?_cons_succ] at hg
      have hperm := ih hg
      simp only [List.set_cons_succ, List.flatten_cons]
      exact (hperm.append_left l).trans List.perm_middle

lemma mergeRunAux_perm (sched : List Nat) (rem : List (List α)) :
    List.Perm rem.flatten ((mergeRunAux rem sched).1 ++ (mergeRunAux rem sched).2.flatten) := by
  induction sched generalizing rem with
  | nil => simp [mergeRunAux]
  | cons u sched ih =>
    cases h : mergeStep rem u with
    | none => simpa [mergeRunAux, h] using ih rem
    | some p =>
      obtain ⟨x, rem2⟩ := p
      obtain ⟨xs, hg, hset⟩ := mergeStep_eq_some h
      subst hset
      have h1 := flatten_set_perm hg
      have h2 := ih (rem.set u xs)
      simp only [mergeRunAux, h]
      exact h1.trans (h2.cons x)

lemma flatten_eq_nil_of_all_isEmpty {L : List (List α)} (h : L.all List.isEmpty = true) :
    L.flatten = [] := by
  induction L with
  | nil => rfl
  | cons l rest ih =>
    simp only [List.all_cons, Bool.and_eq_true] at h
    have hl : l = [] := by
      cases l with
      | nil => rfl
      | cons a as => simp [List.isEmpty] at h
    simp [hl, ih h.2]

lemma mergeRun_perm_flatten {units : List (List α)} {sched : List Nat}
    (hc : mergeComplete units sched = true) :
    List.Perm (mergeRun units sched) units.flatten := by
  have h := mergeRunAux_perm sched units
  rw [flatten_eq_nil_of_all_isEmpty hc, List.append_nil] at h
  exact h.symm

/-- The well-formedness invariant of the tagged per-unit contribution
lists: the list at index `i` holds exactly the contributions tagged with
unit index `i`. -/
def UnitTagged (rem : List (List (Nat × Nat × α))) : Prop :=
  ∀ i l, rem.get? i = some l → ∀ e ∈ l, e.1 = i

lemma unitTagged_set {rem : List (List (Nat × Nat × α))} {v : Nat} {x : Nat × Nat × α}
    {xs : List (Nat × Nat × α)} (hinv : UnitTagged rem)
    (hg : rem.get? v = some (x :: xs)) : UnitTagged (rem.set v xs) := by
  intro i l hl e he
  by_cases hiv : i = v
  · subst hiv
    rw [List.get?_set_eq, hg] at hl
    have hl2 : xs = l := by simpa using hl
    subst hl2
    exact hinv i (x :: xs) hg e (List.mem_cons_of_mem x he)
  · rw [List.get?_set_ne _ _ (fun hvi => hiv hvi.symm)] at hl
    exact hinv i l hl e he

lemma mergeRunAux_filter (sched : List Nat) {rem : List (List (Nat × Nat × α))} {u : Nat}
    {lu : List (Nat × Nat × α)} (hinv : UnitTagged rem) (hu : rem.get? u = some lu) :
    ∃ lu2, (mergeRunAux rem sched).2.get? u = some lu2 ∧
      (mergeRunAux rem sched).1.filter (fun e => e.1 == u) ++ lu2 = lu := by
  induction sched generalizing rem lu with
  | nil => exact ⟨lu, hu, by simp [mergeRunAux]⟩
  | cons v sched ih =>
    cases h : mergeStep rem v with
    | none =>
      simp only [mergeRunAux, h]
      exact ih hinv hu
    | some p =>
      obtain ⟨x, rem2⟩ := p
      obtain ⟨xs, hg, hset⟩ := mergeStep_eq_some h
      subst hset
      have hx : x.1 = v := hinv v (x :: xs) hg x (List.mem_cons_self x xs)
      have hinv2 := unitTagged_set hinv hg
      by_cases huv : u = v
      · subst huv
        obtain rfl : lu = x :: xs := by rw [hu] at hg; simpa using hg
        have hu2 : (rem.set u xs).get? u = some xs := by
          rw [List.get?_set_eq, hg]; rfl
        obtain ⟨lu2, h2, hfil⟩ := ih hinv2 hu2
        refine ⟨lu2, by simpa [mergeRunAux, h] using h2, ?_⟩
        simp only [mergeRunAux, h, List.filter_cons, hx, beq_self_eq_true, if_pos]
        simpa using hfil
      · have hu2 : (rem.set v xs).get? u = some lu := by
          rw [List.get?_set_ne _ _ (fun hvu => huv hvu.symm)]; exact hu
        obtain ⟨lu2, h2, hfil⟩ := ih hinv2 hu2
        refine ⟨lu2, by simpa [mergeRunAux, h] using h2, ?_⟩
        have hxu : (x.1 == u) = false := by
          simp only [beq_eq_false_iff_ne, ne_eq, hx]
          exact fun hvu => huv hvu.symm
        simp only [mergeRunAux, h, List.filter_cons, hxu]
        simpa using hfil

lemma mergeRun_filter {units : List (List (Nat × Nat × α))} {sched : List Nat} {u : Nat}
    {lu : List (Nat × Nat × α)} (hinv : UnitTagged units) (hu : units.get? u = some lu)
    (hc : mergeComplete units sched = true) :
    (mergeRun units sched).filter (fun e => e.1 == u) = lu := by
  obtain ⟨lu2, h2, hfil⟩ := mergeRunAux_filter sched hinv hu
  have hmem : lu2 ∈ (mergeRunAux units sched).2 := List.get?_mem h2
  have hempty : lu2.isEmpty = true := List.all_eq_true.mp hc lu2 hmem
  have : lu2 = [] := by
    cases lu2 with
    | nil => rfl
    | cons a as => simp [List.isEmpty] at hempty
  subst this
  simpa [mergeRun] using hfil

lemma sublist_get?_positions {t₁ t₂ : List β} (h : List.Sublist t₁ t₂) :
    ∀ i j x y, i < j → t₁.get? i = some x → t₁.get? j = some y →
      ∃ p q, p < q ∧ t₂.get? p = some x ∧ t₂.get? q = some y := by
  induction h with
  | slnil =>
    intro i j x y hij hx hy
    simp at hx
  | cons a hsub ih =>
    intro i j x y hij hx hy
    obtain ⟨p, q, hpq, hp, hq⟩ := ih i j x y hij hx hy
    exact ⟨p + 1, q + 1, Nat.succ_lt_succ hpq, by simpa using hp, by simpa using hq⟩
  | cons₂ a hsub ih =>
    rename_i s1 s2
    intro i j x y hij hx hy
    cases i with
    | zero =>
      cases j with
      | zero => exact absurd hij (Nat.lt_irrefl 0)
      | succ j2 =>
        have hy1 : s1.get? j2 = some y := by simpa using hy
        have hy2 : y ∈ s2 := hsub.subset (List.get?_mem hy1)
        obtain ⟨m, hm⟩ := List.get?_of_mem hy2
        exact ⟨0, m + 1, Nat.succ_pos m, by simpa using hx, by simpa using hm⟩
    | succ i2 =>
      cases j with
      | zero => exact absurd hij (by omega)
      | succ j2 =>
        obtain ⟨p, q, hpq, hp, hq⟩ :=
          ih i2 j2 x y (Nat.lt_of_succ_lt_succ hij) (by simpa using hx) (by simpa using hy)
        exact ⟨p + 1, q + 1, Nat.succ_lt_succ hpq, by simpa using hp, by simpa using hq⟩

lemma tagUnits_get? (units : List (List α)) (u : Nat) :
    (tagUnits units).get? u =
      (units.get? u).map (fun lu => lu.enum.map (fun q => (u, q.1, q.2))) := by
  unfold tagUnits
  rw [List.get?_map, List.get?_enum]
  cases units.get? u <;> simp

lemma tagUnits_unitTagged (units : List (List α)) : UnitTagged (tagUnits units) := by
  intro i l hl e he
  rw [tagUnits_get?] at hl
  cases hu : units.get? i with
  | none => rw [hu] at hl; simp at hl
  | some lu =>
    rw [hu] at hl
    have hl2 : lu.enum.map (fun q => (i, q.1, q.2)) = l := by simpa using hl
    subst hl2
    obtain ⟨q, hq, rfl⟩ := List.mem_map.mp he
    rfl

lemma tagged_get? (lu : List α) (u i : Nat) :
    (lu.enum.map (fun q => (u, q.1, q.2))).get? i = (lu.get? i).map (fun v => (u, i, v)) := by
  rw [List.get?_map, List.get?_enum]
  cases lu.get? i <;> simp

/-! Concrete artifacts of `src/tests/fn_element.rs`. -/

/-- Signature of `fn()` — the element type of `SLICE1` and signature of
`foo` (`src/tests/fn_element.rs` lines 3-7). -/
def sig1 : FnSig := ⟨0, false, Abi.rustCall, [], BaseTy.unit⟩

/-- Signature of `for<'a, 'b> fn(&'a &'b ())` — the element type of
`SLICE2` and signature of `bar` (`src/tests/fn_element.rs` lines 9-13). -/
def sig2 : FnSig := ⟨2, false, Abi.rustCall, [BaseTy.refRefUnit], BaseTy.unit⟩

/-- Signature of `unsafe extern "C" fn() -> i32` — the element type of
`SLICE3` and signature of `baz` (`src/tests/fn_element.rs` lines 15-21). -/
def sig3 : FnSig := ⟨0, true, Abi.externC, [], BaseTy.i32⟩

/-- `pub static SLICE1: [fn()] = [..];`. -/
def SLICE1 : SlotDecl := ⟨"SLICE1", RustTy.fnPtr sig1⟩

/-- `pub static SLICE2: [for<'a, 'b> fn(&'a &'b ())] = [..];`. -/
def SLICE2 : SlotDecl := ⟨"SLICE2", RustTy.fnPtr sig2⟩

/-- `pub static SLICE3: [unsafe extern "C" fn() -> i32] = [..];`. -/
def SLICE3 : SlotDecl := ⟨"SLICE3", RustTy.fnPtr sig3⟩

/-- `#[distributed_slice(SLICE1)] fn foo() {}` — applying the attribute
to a function item registers the function at its item type, which then
coerces to the slice's element type. -/
def fooReg : Registration := ⟨"SLICE1", RustTy.fnDef "foo" sig1⟩

/-- `#[distributed_slice(SLICE2)] fn bar<'a, 'b>(_: &'a &'b ()) {}`. -/
def barReg : Registration := ⟨"SLICE2", RustTy.fnDef "bar" sig2⟩

/-- `#[distributed_slice(SLICE3)] unsafe extern "C" fn baz() -> i32`. -/
def bazReg : Registration := ⟨"SLICE3", RustTy.fnDef "baz" sig3⟩

/-! The claims. -/

/-- C1: for a slot of element type with positive size into which the
units register N contributions in total, after any complete link-order
merge the materialized length — computed as
`(address_of(stop_symbol) - address_of(start_symbol)) / size_of T` by
`sliceLen` — is exactly N, the sum of the units' contribution counts,
regardless of how the contributions are distributed across units. -/
theorem C1_merged_length_eq_total {α : Type} (units : List (List α)) (sched : List Nat)
    (a : Nat) (L : ElemLayout) (hsz : 0 < L.size)
    (hc : mergeComplete units sched = true) :
    sliceLen ⟨a, (mergeRun units sched).length, L⟩ = (units.map List.length).sum := by
  have hlen : (mergeRun units sched).length = (units.map List.length).sum := by
    rw [(mergeRun_perm_flatten hc).length_eq]
    simp
  rw [← hlen]
  unfold sliceLen stopAddr
  simp only
  rw [Nat.add_sub_cancel_left, Nat.mul_div_cancel _ hsz]

/-- Witness for C1: two units contributing 1 and 2 elements merged by a
complete schedule give materialized length 3. -/
theorem C1_merged_length_eq_total_witness :
    sliceLen ⟨64, (mergeRun [[(10 : Nat)], [20, 30]] [1, 0, 1]).length, ⟨8, 8⟩⟩
      = ([[(10 : Nat)], [20, 30]].map List.length).sum :=
  C1_merged_length_eq_total [[10], [20, 30]] [1, 0, 1] 64 ⟨8, 8⟩ (by decide) (by decide)

/-- C2: in a fully linked slot whose element size is positive and a
multiple of the alignment, and whose start boundary is aligned, every
contributed element's address `a` satisfies
`start_addr ≤ a < stop_addr` and `(a - start_addr) % size = 0`, the
distance `stop_addr - start_addr` is an exact multiple of the element
size, and the start boundary, the stop boundary and every element
address are aligned to the element alignment. -/
theorem C2_address_invariants (s : LinkedSlot) (k : Nat)
    (hk : k < s.count) (hsz : 0 < s.layout.size)
    (hal : s.layout.align ∣ s.layout.size) (hstart : s.layout.align ∣ s.startAddr) :
    s.startAddr ≤ elemAddr s k ∧ elemAddr s k < stopAddr s ∧
    (elemAddr s k - s.startAddr) % s.layout.size = 0 ∧
    (stopAddr s - s.startAddr) % s.layout.size = 0 ∧
    s.layout.align ∣ s.startAddr ∧ s.layout.align ∣ stopAddr s ∧
    s.layout.align ∣ elemAddr s k := by
  unfold elemAddr stopAddr
  refine ⟨Nat.le_add_right _ _, ?_, ?_, ?_, hstart, ?_, ?_⟩
  · exact Nat.add_lt_add_left (Nat.mul_lt_mul_of_pos_right hk hsz) _
  · rw [Nat.add_sub_cancel_left, Nat.mul_mod_left]
  · rw [Nat.add_sub_cancel_left, Nat.mul_mod_left]
  · exact Nat.dvd_add hstart (hal.mul_left _)
  · exact Nat.dvd_add hstart (hal.mul_left _)

/-- Witness for C2: the second of two elements of size 8, alignment 8,
in a slot starting at address 16. -/
theorem C2_address_invariants_witness :
    16 ≤ elemAddr ⟨16, 2, ⟨8, 8⟩⟩ 1 ∧ elemAddr ⟨16, 2, ⟨8, 8⟩⟩ 1 < stopAddr ⟨16, 2, ⟨8, 8⟩⟩ ∧
    (elemAddr ⟨16, 2, ⟨8, 8⟩⟩ 1 - 16) % 8 = 0 ∧
    (stopAddr ⟨16, 2, ⟨8, 8⟩⟩ - 16) % 8 = 0 ∧
    (8 : Nat) ∣ 16 ∧ (8 : Nat) ∣ stopAddr ⟨16, 2, ⟨8, 8⟩⟩ ∧
    (8 : Nat) ∣ elemAddr ⟨16, 2, ⟨8, 8⟩⟩ 1 :=
  C2_address_invariants ⟨16, 2, ⟨8, 8⟩⟩ 1 (by decide) (by decide) (by decide) (by decide)

/-- C4: a slot with zero registered elements still builds (on a
supported platform), its two boundary symbols exist and coincide
(`start_addr == stop_addr`), materialization yields a valid sequence of
length 0 with `is_empty() == true` rather than an error, and indexing it
at any index is a reported out-of-range error (`none`). -/
theorem C4_empty_slot {α : Type} (p : Platform) (d : SlotDecl) (s : LinkedSlot)
    (hp : platformSupported p = true) (h0 : s.count = 0) :
    buildSlot p d [] = Except.ok 0 ∧
    stopAddr s = s.startAddr ∧
    sliceLen s = 0 ∧
    viewIsEmpty s = true ∧
    (∀ (mem : Nat → α) (i : Nat), viewGet s mem i = none) := by
  have hstop : stopAddr s = s.startAddr := by
    unfold stopAddr
    rw [h0, Nat.zero_mul, Nat.add_zero]
  have hlen : sliceLen s = 0 := by
    unfold sliceLen
    rw [hstop, Nat.sub_self, Nat.zero_div]
  refine ⟨?_, hstop, hlen, ?_, ?_⟩
  · unfold buildSlot sectionDirective
    rw [hp]
    rfl
  · unfold viewIsEmpty
    rw [hlen]
    rfl
  · intro mem i
    unfold viewGet
    rw [hlen]
    simp

/-- Witness for C4: the `SLICE1` declaration on Linux with zero
registrations, a zero-count slot at address 4096. -/
theorem C4_empty_slot_witness :
    buildSlot Platform.linux SLICE1 [] = Except.ok 0 ∧
    stopAddr ⟨4096, 0, ⟨8, 8⟩⟩ = 4096 ∧
    sliceLen ⟨4096, 0, ⟨8, 8⟩⟩ = 0 ∧
    viewIsEmpty ⟨4096, 0, ⟨8, 8⟩⟩ = true ∧
    (∀ (mem : Nat → Nat) (i : Nat), viewGet ⟨4096, 0, ⟨8, 8⟩⟩ mem i = none) :=
  C4_empty_slot Platform.linux SLICE1 ⟨4096, 0, ⟨8, 8⟩⟩ rfl rfl

/-- C5: materialization is idempotent and deterministic — from any
reachable cache state (empty, or already holding the computed pair, as
after any race between concurrent first accesses), an access returns
exactly the (pointer, length) pair computed from the two fixed boundary
addresses, leaves that pair cached, and any number of further accesses
all return that same pair. -/
theorem C5_materialization_idempotent (s : LinkedSlot) (c : Option (Nat × Nat))
    (hcache : c = none ∨ c = some (materializeView s)) :
    (accessSlice s c).1 = materializeView s ∧
    (accessSlice s c).2 = some (materializeView s) ∧
    (∀ n, ∀ v ∈ accessMany s n c, v = materializeView s) := by
  have hstep : ∀ c2, c2 = none ∨ c2 = some (materializeView s) →
      accessSlice s c2 = (materializeView s, some (materializeView s)) := by
    rintro c2 (rfl | rfl) <;> rfl
  have hmany : ∀ n c2, c2 = none ∨ c2 = some (materializeView s) →
      ∀ v ∈ accessMany s n c2, v = materializeView s := by
    intro n
    induction n with
    | zero =>
      intro c2 _ v hv
      simp [accessMany] at hv
    | succ m ih =>
      intro c2 hc2 v hv
      rw [accessMany, hstep c2 hc2] at hv
      rcases List.mem_cons.mp hv with rfl | hv2
      · rfl
      · exact ih (some (materializeView s)) (Or.inr rfl) v hv2
  refine ⟨?_, ?_, fun n => hmany n c hcache⟩
  · rw [hstep c hcache]
  · rw [hstep c hcache]

/-- Witness for C5: three accesses starting from an empty cache on a
two-element slot all return the computed (pointer, length) pair. -/
theorem C5_materialization_idempotent_witness :
    (accessSlice ⟨32, 2, ⟨8, 8⟩⟩ none).1 = materializeView ⟨32, 2, ⟨8, 8⟩⟩ ∧
    (accessSlice ⟨32, 2, ⟨8, 8⟩⟩ none).2 = some (materializeView ⟨32, 2, ⟨8, 8⟩⟩) ∧
    (∀ n, ∀ v ∈ accessMany ⟨32, 2, ⟨8, 8⟩⟩ n none, v = materializeView ⟨32, 2, ⟨8, 8⟩⟩) :=
  C5_materialization_idempotent ⟨32, 2, ⟨8, 8⟩⟩ none (Or.inl rfl)

/-- C7: building a slot for a platform outside the Platform Section
Model's support table fails at compile time with a diagnostic naming the
problem; it never produces a binary (no `ok` result). -/
theorem C7_unsupported_platform_fails (p : Platform) (d : SlotDecl)
    (regs : List Registration) (hp : platformSupported p = false) :
    buildSlot p d regs =
      Except.error ("unsupported platform for distributed slice section " ++ d.symbolName)
    ∧ ∀ n, buildSlot p d regs ≠ Except.ok n := by
  have herr : buildSlot p d regs =
      Except.error ("unsupported platform for distributed slice section " ++ d.symbolName) := by
    unfold buildSlot sectionDirective
    rw [hp]
    rfl
  exact ⟨herr, fun n hn => by rw [herr] at hn; exact Except.noConfusion hn⟩

/-- Witness for C7: building `SLICE1` for a WASM target fails with the
unsupported-platform diagnostic. -/
theorem C7_unsupported_platform_fails_witness :
    buildSlot (Platform.other "wasm32") SLICE1 [fooReg] =
      Except.error ("unsupported platform for distributed slice section " ++ SLICE1.symbolName)
    ∧ ∀ n, buildSlot (Platform.other "wasm32") SLICE1 [fooReg] ≠ Except.ok n :=
  C7_unsupported_platform_fails (Platform.other "wasm32") SLICE1 [fooReg] rfl

/-- C8: a registration whose (coerced) value type differs from the
slot's declared element type makes the build fail with a type-mismatch
diagnostic — it is a compile-time type error, never a runtime corruption
of the merged slice. -/
theorem C8_type_mismatch_is_compile_error (p : Platform) (d : SlotDecl)
    (regs : List Registration) (r : Registration) (hp : platformSupported p = true)
    (hr : r ∈ regs) (hty : coerceValueTy r.valueTy ≠ d.elemTy) :
    buildSlot p d regs =
      Except.error ("mismatched types in registration for slot " ++ d.symbolName) ∧
    ∀ n, buildSlot p d regs ≠ Except.ok n := by
  have hall : regs.all (fun r2 => coerceValueTy r2.valueTy == d.elemTy) = false := by
    rw [List.all_eq_false]
    exact ⟨r, hr, by simpa using hty⟩
  have herr : buildSlot p d regs =
      Except.error ("mismatched types in registration for slot " ++ d.symbolName) := by
    unfold buildSlot sectionDirective
    rw [hp]
    simp only [hall]
    rfl
  exact ⟨herr, fun n hn => by rw [herr] at hn; exact Except.noConfusion hn⟩

/-- Witness for C8: registering `bar` (a `for<'a, 'b> fn(&'a &'b ())`
item) into `SLICE1`, whose element type is `fn()`, fails the build with
the type-mismatch diagnostic. -/
theorem C8_type_mismatch_is_compile_error_witness :
    buildSlot Platform.macos SLICE1 [barReg] =
      Except.error ("mismatched types in registration for slot " ++ SLICE1.symbolName) ∧
    ∀ n, buildSlot Platform.macos SLICE1 [barReg] ≠ Except.ok n :=
  C8_type_mismatch_is_compile_error Platform.macos SLICE1 [barReg] barReg rfl
    (List.mem_singleton.mpr rfl) (by decide)

/-- C3: for any complete link-order merge of the tagged contributions,
(a) the merged sequence is a permutation of all contributions — every
contribution appears exactly once somewhere in it; (b) for each unit `u`
the merged sequence restricted to unit `u` is exactly unit `u`'s
contribution list in per-unit ordinal order; and (c) any two
contributions of the same unit with ordinals `i < j` occupy positions
`p < q` of the merged sequence — while across units the schedule (hence
the order) is arbitrary. -/
theorem C3_per_unit_order_preserved {α : Type} (units : List (List α)) (sched : List Nat)
    (u : Nat) (lu : List α) (hu : units.get? u = some lu)
    (hc : mergeComplete (tagUnits units) sched = true) :
    List.Perm (mergeRun (tagUnits units) sched) (tagUnits units).flatten ∧
    (mergeRun (tagUnits units) sched).filter (fun e => e.1 == u)
      = lu.enum.map (fun q => (u, q.1, q.2)) ∧
    (∀ i j vi vj, i < j → lu.get? i = some vi → lu.get? j = some vj →
      ∃ p q, p < q ∧
        (mergeRun (tagUnits units) sched).get? p = some (u, i, vi) ∧
        (mergeRun (tagUnits units) sched).get? q = some (u, j, vj)) := by
  have htag : (tagUnits units).get? u = some (lu.enum.map (fun q => (u, q.1, q.2))) := by
    rw [tagUnits_get?, hu]
    rfl
  have hfil := mergeRun_filter (tagUnits_unitTagged units) htag hc
  refine ⟨mergeRun_perm_flatten hc, hfil, ?_⟩
  intro i j vi vj hij hvi hvj
  have hsub : List.Sublist (lu.enum.map (fun q => (u, q.1, q.2)))
      (mergeRun (tagUnits units) sched) := by
    rw [← hfil]
    exact List.filter_sublist _
  exact sublist_get?_positions hsub i j (u, i, vi) (u, j, vj) hij
    (by rw [tagged_get?, hvi]; rfl) (by rw [tagged_get?, hvj]; rfl)

/-- Witness for C3: two units, the first contributing `[10, 20]`, merged
by the complete schedule `[1, 0, 0]`; unit 0's order is preserved and
every contribution appears once. -/
theorem C3_per_unit_order_preserved_witness :
    List.Perm (mergeRun (tagUnits [[(10 : Nat), 20], [30]]) [1, 0, 0])
      (tagUnits [[(10 : Nat), 20], [30]]).flatten ∧
    (mergeRun (tagUnits [[(10 : Nat), 20], [30]]) [1, 0, 0]).filter (fun e => e.1 == 0)
      = [(10 : Nat), 20].enum.map (fun q => (0, q.1, q.2)) ∧
    (∀ i j vi vj, i < j → [(10 : Nat), 20].get? i = some vi →
      [(10 : Nat), 20].get? j = some vj →
      ∃ p q, p < q ∧
        (mergeRun (tagUnits [[(10 : Nat), 20], [30]]) [1, 0, 0]).get? p = some (0, i, vi) ∧
        (mergeRun (tagUnits [[(10 : Nat), 20], [30]]) [1, 0, 0]).get? q = some (0, j, vj)) :=
  C3_per_unit_order_preserved [[10, 20], [30]] [1, 0, 0] 0 [10, 20] rfl (by decide)

/-- C6: the materialized slot is observably equivalent to the plain
immutable sequence over the same memory: the address-arithmetic length,
bounds-checked indexing (out of range is `none`, never a wrapped or
out-of-bounds access), contiguous sub-range slicing and forward
iteration all agree with the native sequence operations (`List.length`,
`List.get?`, `List.drop`/`List.take`, identity) on that sequence. -/
theorem C6_view_refines_native_slice {α : Type} (s : LinkedSlot) (mem : Nat → α) :
    sliceLen s = (nativeSliceView s mem).length ∧
    (∀ i, viewGet s mem i = (nativeSliceView s mem).get? i) ∧
    (∀ i, sliceLen s ≤ i → viewGet s mem i = none) ∧
    (∀ a b, viewSub s mem a b =
      if a ≤ b ∧ b ≤ (nativeSliceView s mem).length
      then some (((nativeSliceView s mem).drop a).take (b - a))
      else none) ∧
    viewIter s mem = nativeSliceView s mem := by
  have hlen : (nativeSliceView s mem).length = sliceLen s := by
    unfold nativeSliceView readSlice
    rw [List.length_map, List.length_range]
  have hget : ∀ i, (nativeSliceView s mem).get? i =
      if i < sliceLen s then some (mem (elemAddr s i)) else none := by
    intro i
    unfold nativeSliceView readSlice
    rw [List.get?_map]
    by_cases hi : i < sliceLen s
    · rw [List.get?_range hi, if_pos hi]
      rfl
    · rw [if_neg hi, List.get?_eq_none.mpr (by rw [List.length_range]; omega)]
      rfl
  refine ⟨hlen.symm, ?_, ?_, ?_, rfl⟩
  · intro i
    rw [hget i]
    rfl
  · intro i hi
    unfold viewGet
    rw [if_neg (by omega)]
  · intro a b
    rw [hlen]
    unfold viewSub
    by_cases hab : a ≤ b ∧ b ≤ sliceLen s
    · rw [if_pos hab, if_pos hab]
      refine congrArg some (List.ext_get?_iff.mpr fun k => ?_)
      rw [List.get?_map]
      by_cases hk : k < b - a
      · rw [List.get?_range hk, List.get?_take (by omega), List.get?_drop, hget (a + k),
          if_pos (by omega)]
        rfl
      · rw [List.get?_eq_none.mpr (by rw [List.length_range]; omega),
          List.get?_eq_none.mpr (by rw [List.length_take]; omega)]
        rfl
    · rw [if_neg hab, if_neg hab]

/-- C9: no run-time operation of the surface — materialization, length
query, indexing, sub-range slicing, iteration — mutates the merged
storage or the linked slot; after any sequence of operations the storage
function, the slot, and therefore the merged contents read back from
them, are unchanged (only the materialization cache may change). -/
theorem C9_storage_never_mutated {α : Type} (ops : List SliceOp) (st : ProcState α) :
    (runOps ops st).storage = st.storage ∧ (runOps ops st).slot = st.slot ∧
    readSlice (runOps ops st).slot (runOps ops st).storage = readSlice st.slot st.storage := by
  have hone : ∀ (op : SliceOp) (st2 : ProcState α),
      (runOp op st2).2.storage = st2.storage ∧ (runOp op st2).2.slot = st2.slot := by
    intro op st2
    cases op <;> exact ⟨rfl, rfl⟩
  have hmain : ∀ (ops2 : List SliceOp) (st2 : ProcState α),
      (runOps ops2 st2).storage = st2.storage ∧ (runOps ops2 st2).slot = st2.slot := by
    intro ops2
    induction ops2 with
    | nil => exact fun st2 => ⟨rfl, rfl⟩
    | cons op rest ih =>
      intro st2
      obtain ⟨h1, h2⟩ := ih (runOp op st2).2
      obtain ⟨h3, h4⟩ := hone op st2
      exact ⟨by rw [runOps, h1, h3], by rw [runOps, h2, h4]⟩
  obtain ⟨h1, h2⟩ := hmain ops st
  exact ⟨h1, h2, by rw [h1, h2]⟩

/-- C10: applying the registration attribute directly to a function item
— also with a higher-ranked or `unsafe extern "C"` signature — registers
the function's pointer as one element: the function item type coerces to
the slot's function pointer element type, the build succeeds with one
element, the linked one-element slot materializes to the sequence
holding exactly that function pointer, and `is_empty()` is `false`. -/
theorem C10_fn_item_registration (slotName fnName : String) (sig : FnSig)
    (p : Platform) (s : LinkedSlot) (mem : Nat → String)
    (hp : platformSupported p = true) (hcount : s.count = 1) (hsz : 0 < s.layout.size)
    (hmem : mem (elemAddr s 0) = fnName) :
    coerceValueTy (RustTy.fnDef fnName sig) = RustTy.fnPtr sig ∧
    buildSlot p ⟨slotName, RustTy.fnPtr sig⟩ [⟨slotName, RustTy.fnDef fnName sig⟩]
      = Except.ok 1 ∧
    sliceLen s = 1 ∧
    readSlice s mem = [fnName] ∧
    viewIsEmpty s = false := by
  have hlen : sliceLen s = 1 := by
    unfold sliceLen stopAddr
    rw [hcount, Nat.one_mul, Nat.add_sub_cancel_left, Nat.div_self hsz]
  refine ⟨rfl, ?_, hlen, ?_, ?_⟩
  · unfold buildSlot sectionDirective
    rw [hp]
    simp [coerceValueTy]
  · unfold readSlice
    rw [hlen]
    simp [List.range_succ, hmem]
  · unfold viewIsEmpty
    rw [hlen]
    rfl

/-- Witness for C10: `bar`, whose item type must coerce to the
higher-ranked pointer type `for<'a, 'b> fn(&'a &'b ())`, registered into
`SLICE2` on Linux; the one-element linked slot holds `bar`'s pointer and
is not empty. -/
theorem C10_fn_item_registration_witness :
    coerceValueTy (RustTy.fnDef "bar" sig2) = RustTy.fnPtr sig2 ∧
    buildSlot Platform.linux ⟨"SLICE2", RustTy.fnPtr sig2⟩
      [⟨"SLICE2", RustTy.fnDef "bar" sig2⟩] = Except.ok 1 ∧
    sliceLen ⟨128, 1, ⟨8, 8⟩⟩ = 1 ∧
    readSlice ⟨128, 1, ⟨8, 8⟩⟩ (fun _ => "bar") = ["bar"] ∧
    viewIsEmpty ⟨128, 1, ⟨8, 8⟩⟩ = false :=
  C10_fn_item_registration "SLICE2" "bar" sig2 Platform.linux ⟨128, 1, ⟨8, 8⟩⟩
    (fun _ => "bar") rfl rfl (by decide) rfl

end Linkme
